import Mathlib

/-!
Shallow embedding of `src/generator.py` (Adobe-stock-auto-meta-gen).

The program is a single linear pipeline: enumerate media files in a
directory (one level), extract a still frame for videos, ask a remote
vision model for a title and keyword list, and embed the result into the
file's metadata (IPTC fields for images; ffmpeg container tags plus
exiftool XMP subject tags for videos).

Modelling choices:
* Strings are lists of Unicode code points (`List Nat`); `strLit`
  converts a Lean string literal.  Python's `str.lower` is modelled for
  the ASCII letters, the only ones the program's extension checks use.
* The file system is explicit state: an association list from path to an
  abstract content id for regular files, plus an association list from
  directory path to its immediate child names.
* External collaborators (OpenCV decoding, the OpenAI vision call,
  `subprocess.run` for ffmpeg/exiftool, the iptcinfo3 backup behaviour,
  and the `tempfile.mkstemp` fresh-name supply) are an environment of
  oracles (`Env`).  The freshness guarantee of `mkstemp` is a property of the
  `tempPath` supply assumed where a claim needs it.
* Python exceptions are `Except`: `RuntimeError` from frame extraction
  and `subprocess.CalledProcessError` (from `check=True`) propagate.
  Python's unbounded recursion into directories is modelled with a fuel
  parameter; `Err.fuelExhausted` is an artifact of that bounding and
  never occurs for sufficient fuel.
* Externally visible writes (subprocess invocations with their full
  argument vectors, IPTC saves with the fields written, console output)
  are recorded in an event trace.
-/

namespace Generator

/-- Strings modelled as lists of code points. -/
abbrev Str := List Nat

/-- Convert a Lean string literal to its code-point list. -/
def strLit (s : String) : Str := s.data.map Char.toNat

abbrev Path := Str

/-- ASCII lower-casing of one code point, modelling `str.lower` on the
characters the program compares against (ASCII letters). -/
def lowerCode (n : Nat) : Nat := if 65 ≤ n ∧ n ≤ 90 then n + 32 else n

/-- `s.lower()` on a code-point string. -/
def lowerStr (s : Str) : Str := s.map lowerCode

/-- Line 75-78: `fname.lower().endswith((".jpg", ".jpeg", ".png", ".mp4"))`. -/
def eligibleName (fname : Str) : Bool :=
  (strLit ".jpg").isSuffixOf (lowerStr fname) ||
  (strLit ".jpeg").isSuffixOf (lowerStr fname) ||
  (strLit ".png").isSuffixOf (lowerStr fname) ||
  (strLit ".mp4").isSuffixOf (lowerStr fname)

/-- Index of the last occurrence of `c` (Python `str.rfind`, as an `Option`). -/
def rfindIdx (c : Nat) : Str → Option Nat
  | [] => none
  | x :: xs =>
    match rfindIdx c xs with
    | some i => some (i + 1)
    | none => if x = c then some 0 else none

/-- The start index of the basename: one past the last slash, or `0`. -/
def sepStart (p : Str) : Nat :=
  match rfindIdx 47 p with
  | none => 0
  | some i => i + 1

/-- The extension part of `os.path.splitext` (posixpath semantics):
the suffix from the last dot, provided that dot lies after the last
slash and the basename is not made of dots only up to it. -/
def splitextExt (p : Str) : Str :=
  match rfindIdx 46 p with
  | none => []
  | some d =>
    let s := sepStart p
    if s ≤ d ∧ ((List.range' s (d - s)).any fun j => p.getD j 0 != 46) then
      p.drop d
    else []

/-- Analysis helper: when an extension-shaped suffix is appended to
`stem`, `splitextExt` keeps it exactly when some character of `stem`
after its last slash is not a dot. -/
def stemCond (stem : Str) : Bool :=
  (List.range' (sepStart stem) (stem.length - sepStart stem)).any
    fun j => stem.getD j 0 != 46

inductive MediaKind where
  | image
  | video
  | unsupported
deriving DecidableEq

/-- Lines 84-95: dispatch on `os.path.splitext(path)[1].lower()`. -/
def classifyPath (path : Path) : MediaKind :=
  let ext := lowerStr (splitextExt path)
  if ext = strLit ".jpg" ∨ ext = strLit ".jpeg" ∨ ext = strLit ".png" then .image
  else if ext = strLit ".mp4" then .video
  else .unsupported

/-- `os.path.basename`. -/
def basename (p : Str) : Str :=
  match rfindIdx 47 p with
  | none => p
  | some i => p.drop (i + 1)

/-- `os.path.join` for two components (posixpath semantics). -/
def pathJoin (a b : Str) : Str :=
  if b.head? = some 47 then b
  else if a = [] ∨ a.getLast? = some 47 then a ++ b
  else a ++ (47 :: b)

/-- Python `";".join(keywords)` (line 40). -/
def joinSemi : List Str → Str
  | [] => []
  | [k] => k
  | k :: k2 :: ks => k ++ 59 :: joinSemi (k2 :: ks)

/-- Splitting a code-point string at the semicolon (code 59), the
reading-back of the joined keyword representation. -/
def splitSemiAux : Str → Str → List Str
  | [], acc => [acc.reverse]
  | c :: cs, acc =>
    if c = 59 then acc.reverse :: splitSemiAux cs []
    else splitSemiAux cs (c :: acc)

def splitSemi (s : Str) : List Str := splitSemiAux s []

/-- The file-system state: regular files (path with an abstract content
id; the head entry wins, so writing is consing) and directories with
their immediate child names. -/
structure FS where
  files : List (Path × Nat)
  dirs : List (Path × List Str)
deriving DecidableEq

def FS.isDir (fs : FS) (p : Path) : Bool := (fs.dirs.lookup p).isSome

def FS.isFile (fs : FS) (p : Path) : Bool := (fs.files.lookup p).isSome

/-- `os.path.exists`. -/
def FS.pathExists (fs : FS) (p : Path) : Bool := fs.isFile p || fs.isDir p

/-- Create or overwrite a regular file. -/
def FS.write (fs : FS) (p : Path) (c : Nat) : FS :=
  { fs with files := (p, c) :: fs.files }

/-- `os.remove`. -/
def FS.remove (fs : FS) (p : Path) : FS :=
  { fs with files := fs.files.filter fun e => !(e.1 == p) }

/-- `os.replace src dst`. -/
def FS.replace (fs : FS) (src dst : Path) : FS :=
  match fs.files.lookup src with
  | some c => (fs.remove src).write dst c
  | none => fs

/-- Externally visible actions of the pipeline. -/
inductive Event where
  /-- A `subprocess.run` invocation with its full argument vector. -/
  | run (cmd : List Str)
  /-- The IPTC save: object name and keywords written to the image at `path`. -/
  | iptcSave (path : Path) (objectName : Str) (keywords : List Str)
  /-- A console line (`tqdm.write`). -/
  | output (line : Str)
deriving DecidableEq

structure St where
  fs : FS
  tempCtr : Nat
  events : List Event
deriving DecidableEq

/-- The structured vision response (`class ImageDescription(BaseModel)`). -/
structure ImageDescription where
  name : Str
  keywords : List Str
deriving DecidableEq

/-- Oracles for the external collaborators. -/
structure Env where
  /-- `cv2.VideoCapture(path).read()`: the first decodable frame's
  content, or `none` when no frame can be read. -/
  decodeFrame : Path → Option Nat
  /-- The `tempfile.mkstemp` fresh-name supply, indexed by how many temp
  files were created so far. -/
  tempPath : Nat → Path
  /-- The vision call: image content, prompt filename, optional location
  hint ↦ parsed `ImageDescription` and the raw message content. -/
  vision : Nat → Str → Option Str → ImageDescription × Str
  /-- Whether `subprocess.run(cmd, check=True)` exits with status 0. -/
  runOk : List Str → Bool
  /-- Abstract content produced by a successful external command. -/
  procOut : List Str → Nat
  /-- Whether the iptcinfo3 save leaves a `~` backup file behind. -/
  iptcBackup : Path → Bool

/-- Propagating Python exceptions. -/
inductive Err where
  /-- `RuntimeError(f"Could not read frame from video: {video_path}")`. -/
  | extraction (path : Path)
  /-- `subprocess.CalledProcessError` for the given argument vector. -/
  | subprocess (cmd : List Str)
  /-- Artifact of fuel-bounded modelling of Python's recursion. -/
  | fuelExhausted
deriving DecidableEq

/-- Results: `{"labels": ...}`, `{"error": ...}`, or the per-filename
mapping a directory call returns. -/
inductive ProcessResult where
  | labels (s : Str)
  | errorResult (msg : Str)
  | mapping (entries : List (Str × ProcessResult))

/-- Lines 20-33: read the first frame, raise if none, write it to a
fresh temp file, return the temp path. -/
def extract_first_frame (env : Env) (video_path : Path) (st : St) :
    Except Err Path × St :=
  match env.decodeFrame video_path with
  | none => (Except.error (Err.extraction video_path), st)
  | some frame =>
    let temp := env.tempPath st.tempCtr
    (Except.ok temp, ⟨st.fs.write temp frame, st.tempCtr + 1, st.events⟩)

/-- Lines 41-51: the ffmpeg argument vector, including the four
`-metadata` pairs built from `keywords_str = ";".join(keywords)`. -/
def ffmpegCmd (video_path title : Str) (keywords : List Str) : List Str :=
  let keywords_str := joinSemi keywords
  [strLit "ffmpeg", strLit "-y", strLit "-i", video_path,
   strLit "-metadata", strLit "title=" ++ title,
   strLit "-metadata", strLit "keywords=" ++ keywords_str,
   strLit "-metadata", strLit "comment=" ++ keywords_str,
   strLit "-metadata", strLit "description=" ++ keywords_str,
   strLit "-codec", strLit "copy", video_path ++ strLit ".temp.mp4"]

/-- Lines 54-58: the exiftool argument vector, one `-XMP:Subject=` item
per keyword, in order, followed by the video path. -/
def exiftoolCmd (keywords : List Str) (video_path : Str) : List Str :=
  strLit "exiftool" :: strLit "-overwrite_original" ::
    (keywords.map (fun kw => strLit "-XMP:Subject=" ++ kw) ++ [video_path])

/-- Lines 36-58: remux with ffmpeg into `path + ".temp.mp4"`, replace
the original, then run exiftool in place.  Either subprocess failing
raises. -/
def embed_metadata_in_video (env : Env) (video_path title : Str)
    (keywords : List Str) (st : St) : Except Err Unit × St :=
  let temp_output := video_path ++ strLit ".temp.mp4"
  let cmd := ffmpegCmd video_path title keywords
  let st1 : St := ⟨st.fs, st.tempCtr, st.events ++ [Event.run cmd]⟩
  if env.runOk cmd then
    let fs2 := (st1.fs.write temp_output (env.procOut cmd)).replace temp_output video_path
    let exCmd := exiftoolCmd keywords video_path
    let st3 : St := ⟨fs2, st1.tempCtr, st1.events ++ [Event.run exCmd]⟩
    if env.runOk exCmd then
      (Except.ok (), ⟨st3.fs.write video_path (env.procOut exCmd), st3.tempCtr, st3.events⟩)
    else (Except.error (Err.subprocess exCmd), st3)
  else (Except.error (Err.subprocess cmd), st1)

/-- Lines 141-149: create the IPTC block in force mode, set object name
and keywords from the parsed description, save in place (possibly
leaving a `~` backup, modelled by the `iptcBackup` oracle), delete the
backup if it exists, and report the new name. -/
def iptcStage (env : Env) (loc : Option Str) (path image_path : Path) (st : St) : St :=
  let desc := (env.vision ((st.fs.files.lookup image_path).getD 0) (basename path) loc).1
  let backup := image_path ++ [126]
  let fs1 := if env.iptcBackup image_path then st.fs.write backup 0 else st.fs
  let fs2 := if fs1.pathExists backup then fs1.remove backup else fs1
  ⟨fs2, st.tempCtr,
   st.events ++ [Event.iptcSave image_path desc.name desc.keywords,
                 Event.output (strLit "New image name: " ++ desc.name)]⟩

/-- Lines 97-158 for a classified single file: read the still image,
call the vision model, embed IPTC metadata (removing the `~` backup the
save may produce), then for videos embed container metadata and delete
the temp frame. -/
def processMedia (env : Env) (loc : Option Str) (path image_path : Path)
    (is_video : Bool) (st : St) : Except Err ProcessResult × St :=
  let dr := env.vision ((st.fs.files.lookup image_path).getD 0) (basename path) loc
  let st4 := iptcStage env loc path image_path st
  if is_video then
    match embed_metadata_in_video env path dr.1.name dr.1.keywords st4 with
    | (Except.ok _, st5) =>
      (Except.ok (ProcessResult.labels dr.2),
       ⟨if st5.fs.pathExists image_path then st5.fs.remove image_path else st5.fs,
        st5.tempCtr, st5.events⟩)
    | (Except.error e, st5) => (Except.error e, st5)
  else (Except.ok (ProcessResult.labels dr.2), st4)

/-- Lines 83-158: the single-file branch. -/
def processFile (env : Env) (loc : Option Str) (path : Path) (st : St) :
    Except Err ProcessResult × St :=
  match classifyPath path with
  | MediaKind.unsupported =>
    (Except.ok (ProcessResult.errorResult (strLit "Unsupported file type: " ++ path)), st)
  | MediaKind.image => processMedia env loc path path false st
  | MediaKind.video =>
    match extract_first_frame env path st with
    | (Except.ok temp, st1) => processMedia env loc path temp true st1
    | (Except.error e, st1) => (Except.error e, st1)

/-- The sequential loop over a directory's media files (lines 79-81),
threading the state and aborting on the first uncaught exception. -/
def processDirAux (f : Path → St → Except Err ProcessResult × St)
    (base : Path) : List Str → St → Except Err (List (Str × ProcessResult)) × St
  | [], st => (Except.ok [], st)
  | n :: ns, st =>
    match f (pathJoin base n) st with
    | (Except.ok r, st1) =>
      match processDirAux f base ns st1 with
      | (Except.ok rs, st2) => (Except.ok ((n, r) :: rs), st2)
      | (Except.error e, st2) => (Except.error e, st2)
    | (Except.error e, st1) => (Except.error e, st1)

/-- Lines 61-160: the full pipeline, fuel-bounded.  A directory call
filters its immediate children by `eligibleName` and recurses on each
joined path; a file call dispatches on the extension; anything else
returns the inline error dict. -/
def process_images_and_embed_metadata (env : Env) (loc : Option Str) :
    Nat → Path → St → Except Err ProcessResult × St
  | 0 => fun _ st => (Except.error Err.fuelExhausted, st)
  | fuel + 1 => fun path st =>
    if st.fs.isDir path then
      let children := (st.fs.dirs.lookup path).getD []
      let media := children.filter eligibleName
      match processDirAux (fun p s => process_images_and_embed_metadata env loc fuel p s)
          path media st with
      | (Except.ok rs, st1) => (Except.ok (ProcessResult.mapping rs), st1)
      | (Except.error e, st1) => (Except.error e, st1)
    else if st.fs.isFile path then processFile env loc path st
    else
      (Except.ok (ProcessResult.errorResult
        (strLit "Path " ++ [39] ++ path ++ [39] ++
         strLit " is not a valid file or directory.")), st)

/-- Line 176: `isinstance(result, dict) and "error" in result`.  Every
result the pipeline returns is a dict; a directory mapping contains the
key `"error"` only if some child filename is literally `"error"`. -/
def hasErrorKey : ProcessResult → Bool
  | ProcessResult.labels _ => false
  | ProcessResult.errorResult _ => true
  | ProcessResult.mapping es => es.any fun e => e.1 == strLit "error"

/-- The value `result["error"]`: the message string for an error dict;
for a mapping it would be the nested result dict (that branch is proved
unreachable for pipeline outputs).  The `labels` fallback is dead: it is
only consulted under `hasErrorKey`. -/
def errVal : ProcessResult → Str ⊕ ProcessResult
  | ProcessResult.errorResult msg => Sum.inl msg
  | ProcessResult.mapping es =>
    match es.find? (fun e => e.1 == strLit "error") with
    | some e => Sum.inr e.2
    | none => Sum.inr (ProcessResult.labels [])
  | ProcessResult.labels s => Sum.inr (ProcessResult.labels s)

/-- Lines 176-177: the line printed to standard output, if any. -/
def cliPrinted (res : ProcessResult) : Option (Str ⊕ ProcessResult) :=
  if hasErrorKey res then some (errVal res) else none

/-! Concrete environments and states used to evaluate the pipeline on
closed inputs. -/

/-- An environment in which every external collaborator succeeds. -/
def envOk : Env where
  decodeFrame := fun _ => some 7
  tempPath := fun n => strLit "/tmp/frame" ++ [48 + n]
  vision := fun _ _ _ => (⟨strLit "Title", [strLit "alpha", strLit "beta"]⟩, strLit "rawtext")
  runOk := fun _ => true
  procOut := fun _ => 9
  iptcBackup := fun _ => true

/-- Like `envOk` but the ffmpeg remux exits non-zero. -/
def envFfmpegFail : Env :=
  { envOk with runOk := fun cmd => !(cmd.head? == some (strLit "ffmpeg")) }

/-- A file system holding one video file. -/
def stVid : St := ⟨⟨[(strLit "v.mp4", 1)], []⟩, 0, []⟩

/-- A file system holding one text file. -/
def stTxt : St := ⟨⟨[(strLit "a.txt", 1)], []⟩, 0, []⟩

/-- A directory `d` with one eligible child and one ineligible child. -/
def stDir : St :=
  ⟨⟨[(strLit "d/a.jpg", 1)], [(strLit "d", [strLit "a.jpg", strLit "notes.txt"])]⟩, 0, []⟩

/-- A directory `d` whose immediate child `s.jpg` is itself a directory
with an eligible-looking name, containing a real image one level deeper. -/
def stNested : St :=
  ⟨⟨[(strLit "d/s.jpg/x.jpg", 5)],
    [(strLit "d", [strLit "s.jpg"]), (strLit "d/s.jpg", [strLit "x.jpg"])]⟩, 0, []⟩

/-! Basic facts about the file-system model. -/

theorem lookup_write_self (fs : FS) (p : Path) (c : Nat) :
    ((fs.write p c).files).lookup p = some c := by
  simp [FS.write, List.lookup_cons]

theorem lookup_filter_not_self {β : Type} (l : List (Path × β)) (p : Path) :
    (l.filter fun e => !(e.1 == p)).lookup p = none := by
  induction l with
  | nil => rfl
  | cons e t ih =>
    by_cases h : e.1 = p
    · simp [List.filter_cons, h, ih]
    · have hb : (e.1 == p) = false := by simpa using h
      have hb2 : (p == e.1) = false := by simpa using Ne.symm h
      simp [List.filter_cons, hb, List.lookup_cons, hb2, ih]
      exact ⟨fun hpa => h hpa.symm, fun a b _ hap hpa => hap hpa.symm⟩

theorem lookup_remove_self (fs : FS) (p : Path) :
    ((fs.remove p).files).lookup p = none := by
  simp [FS.remove, lookup_filter_not_self]

theorem isFile_remove_self (fs : FS) (p : Path) :
    (fs.remove p).isFile p = false := by
  simp [FS.isFile, lookup_remove_self]

/-! Facts about the IPTC stage. -/

theorem iptcStage_events (env : Env) (loc : Option Str) (path image_path : Path) (st : St) :
    (iptcStage env loc path image_path st).events =
      st.events ++
        [Event.iptcSave image_path
          ((env.vision ((st.fs.files.lookup image_path).getD 0) (basename path) loc).1).name
          ((env.vision ((st.fs.files.lookup image_path).getD 0) (basename path) loc).1).keywords,
         Event.output (strLit "New image name: " ++
          ((env.vision ((st.fs.files.lookup image_path).getD 0) (basename path) loc).1).name)] :=
  rfl

theorem iptcStage_no_backup (env : Env) (loc : Option Str) (path image_path : Path) (st : St) :
    (iptcStage env loc path image_path st).fs.isFile (image_path ++ [126]) = false := by
  unfold iptcStage
  dsimp only
  generalize (if env.iptcBackup image_path then st.fs.write (image_path ++ [126]) 0 else st.fs) = fs1
  cases hex : fs1.pathExists (image_path ++ [126]) with
  | true => simp [hex, isFile_remove_self]
  | false =>
    simp only [hex, Bool.false_eq_true, if_false, ite_false]
    simp [FS.pathExists] at hex
    exact hex.1

/-! The joined keyword string and its reading-back. -/

theorem splitSemiAux_no_semi (k acc : Str) (h : 59 ∉ k) :
    splitSemiAux k acc = [acc.reverse ++ k] := by
  induction k generalizing acc with
  | nil => simp [splitSemiAux]
  | cons c cs ih =>
    have hc : ¬ c = 59 := fun e => h (e ▸ List.mem_cons_self c cs)
    have hcs : 59 ∉ cs := fun m => h (List.mem_cons_of_mem _ m)
    simp [splitSemiAux, hc, ih (c :: acc) hcs]

theorem splitSemiAux_semi (k rest acc : Str) (h : 59 ∉ k) :
    splitSemiAux (k ++ 59 :: rest) acc = (acc.reverse ++ k) :: splitSemiAux rest [] := by
  induction k generalizing acc with
  | nil => simp [splitSemiAux]
  | cons c cs ih =>
    have hc : ¬ c = 59 := fun e => h (e ▸ List.mem_cons_self c cs)
    have hcs : 59 ∉ cs := fun m => h (List.mem_cons_of_mem _ m)
    simp [splitSemiAux, hc, ih (c :: acc) hcs]

theorem splitSemi_joinSemi (kws : List Str) (hne : kws ≠ [])
    (hfree : ∀ kw ∈ kws, 59 ∉ kw) : splitSemi (joinSemi kws) = kws := by
  induction kws with
  | nil => cases hne rfl
  | cons k t ih =>
    cases t with
    | nil =>
      have := splitSemiAux_no_semi k [] (hfree k (List.mem_cons_self k []))
      simpa [joinSemi, splitSemi] using this
    | cons k2 t2 =>
      have hk : 59 ∉ k := hfree k (List.mem_cons_self _ _)
      have : splitSemi (joinSemi (k :: k2 :: t2)) =
          k :: splitSemi (joinSemi (k2 :: t2)) := by
        simpa [joinSemi, splitSemi] using
          splitSemiAux_semi k (joinSemi (k2 :: t2)) [] hk
      rw [this, ih (by simp) fun kw m => hfree kw (List.mem_cons_of_mem _ m)]

/-- Claim C1, counterexample to the claim as stated: the write
representation of the keyword list in the video container tags is the
semicolon-joined string, and it does not determine the original keyword
list: the lists `["a;b"]` and `["a", "b"]` produce identical ffmpeg
argument vectors. -/
theorem c1_counterexample :
    ffmpegCmd (strLit "v.mp4") (strLit "t") [strLit "a;b"] =
      ffmpegCmd (strLit "v.mp4") (strLit "t") [strLit "a", strLit "b"] ∧
    [strLit "a;b"] ≠ [strLit "a", strLit "b"] := by
  exact ⟨rfl, by decide⟩

/-- Claim C1 (amended): for images the keyword list is assigned
verbatim to the IPTC keywords field (the save event records exactly the
parsed keyword list); for videos the container tags receive the
semicolon-joined keyword string, which determines the original list
whenever the list is nonempty and no keyword contains a semicolon
(splitting at semicolons recovers it). -/
theorem c1_keyword_roundtrip :
    (∀ (env : Env) (loc : Option Str) (path : Path) (st : St),
      classifyPath path = MediaKind.image →
      ∃ desc raw,
        env.vision ((st.fs.files.lookup path).getD 0) (basename path) loc = (desc, raw) ∧
        Event.iptcSave path desc.name desc.keywords ∈
          ((processFile env loc path st).2).events) ∧
    (∀ kws : List Str, kws ≠ [] → (∀ kw ∈ kws, 59 ∉ kw) →
      splitSemi (joinSemi kws) = kws) := by
  constructor
  · intro env loc path st hclass
    refine ⟨(env.vision ((st.fs.files.lookup path).getD 0) (basename path) loc).1,
            (env.vision ((st.fs.files.lookup path).getD 0) (basename path) loc).2,
            rfl, ?_⟩
    simp [processFile, hclass, processMedia, iptcStage_events]
  · exact splitSemi_joinSemi

/-- Witness for `c1_keyword_roundtrip` at a concrete image and keyword list. -/
theorem c1_keyword_roundtrip_witness :
    (∃ desc raw,
      envOk.vision ((stDir.fs.files.lookup (strLit "d/a.jpg")).getD 0)
          (basename (strLit "d/a.jpg")) none = (desc, raw) ∧
      Event.iptcSave (strLit "d/a.jpg") desc.name desc.keywords ∈
        ((processFile envOk none (strLit "d/a.jpg") stDir).2).events) ∧
    splitSemi (joinSemi [strLit "alpha"]) = [strLit "alpha"] :=
  ⟨c1_keyword_roundtrip.1 envOk none (strLit "d/a.jpg") stDir rfl,
   c1_keyword_roundtrip.2 [strLit "alpha"] (by decide) (by decide)⟩

/-- Claim C5: a file with an unsupported extension, and a path that is
neither a file nor a directory, both return the inline error dict and
raise nothing. -/
theorem c5_invalid_inputs (env : Env) (loc : Option Str) (fuel : Nat)
    (path : Path) (st : St) :
    (st.fs.isDir path = false → st.fs.isFile path = true →
      classifyPath path = MediaKind.unsupported →
      process_images_and_embed_metadata env loc (fuel + 1) path st =
        (Except.ok (ProcessResult.errorResult (strLit "Unsupported file type: " ++ path)), st)) ∧
    (st.fs.isDir path = false → st.fs.isFile path = false →
      process_images_and_embed_metadata env loc (fuel + 1) path st =
        (Except.ok (ProcessResult.errorResult
          (strLit "Path " ++ [39] ++ path ++ [39] ++
           strLit " is not a valid file or directory.")), st)) := by
  constructor
  · intro hdir hfile hclass
    simp [process_images_and_embed_metadata, hdir, hfile, processFile, hclass]
  · intro hdir hfile
    simp [process_images_and_embed_metadata, hdir, hfile]

/-- Witness for `c5_invalid_inputs`: a `.txt` file and a nonexistent path. -/
theorem c5_invalid_inputs_witness :
    (process_images_and_embed_metadata envOk none 1 (strLit "a.txt") stTxt =
      (Except.ok (ProcessResult.errorResult (strLit "Unsupported file type: " ++ strLit "a.txt")), stTxt)) ∧
    (process_images_and_embed_metadata envOk none 1 (strLit "nope") stTxt =
      (Except.ok (ProcessResult.errorResult
        (strLit "Path " ++ [39] ++ strLit "nope" ++ [39] ++
         strLit " is not a valid file or directory.")), stTxt)) :=
  ⟨(c5_invalid_inputs envOk none 0 (strLit "a.txt") stTxt).1 rfl rfl rfl,
   (c5_invalid_inputs envOk none 0 (strLit "nope") stTxt).2 rfl rfl⟩

/-- Claim C6: frame extraction raises exactly when no frame is
decodable; on success it returns the fresh temp path taken from the
`mkstemp` supply at the current counter, having written the first
decodable frame there and advanced the counter. -/
theorem c6_frame_extraction (env : Env) (p : Path) (st : St) :
    (env.decodeFrame p = none →
      extract_first_frame env p st = (Except.error (Err.extraction p), st)) ∧
    ((∃ e, (extract_first_frame env p st).1 = Except.error e) ↔
      env.decodeFrame p = none) ∧
    (∀ f, env.decodeFrame p = some f →
      extract_first_frame env p st =
        (Except.ok (env.tempPath st.tempCtr),
         ⟨st.fs.write (env.tempPath st.tempCtr) f, st.tempCtr + 1, st.events⟩)) := by
  refine ⟨?_, ?_, ?_⟩
  · intro h; simp [extract_first_frame, h]
  · cases h : env.decodeFrame p <;> simp [extract_first_frame, h]
  · intro f hf; simp [extract_first_frame, hf]

/-- Witness for `c6_frame_extraction` on a concrete decodable video. -/
theorem c6_frame_extraction_witness :
    envOk.decodeFrame (strLit "v.mp4") = some 7 ∧
    extract_first_frame envOk (strLit "v.mp4") stVid =
      (Except.ok (envOk.tempPath stVid.tempCtr),
       ⟨stVid.fs.write (envOk.tempPath stVid.tempCtr) 7, stVid.tempCtr + 1, stVid.events⟩) :=
  ⟨rfl, (c6_frame_extraction envOk (strLit "v.mp4") stVid).2.2 7 rfl⟩

/-- Claim C7: the second external pass is invoked with exactly one
`-XMP:Subject=` argument per keyword, in keyword-list order, with the
`-overwrite_original` flag and the video path itself as the target, and
on success the video file at that same path holds the output of the pass. -/
theorem c7_exiftool_subjects (env : Env) (video_path title : Str)
    (kws : List Str) (st : St) :
    (exiftoolCmd kws video_path =
      strLit "exiftool" :: strLit "-overwrite_original" ::
        (kws.map (fun kw => strLit "-XMP:Subject=" ++ kw) ++ [video_path])) ∧
    (env.runOk (ffmpegCmd video_path title kws) = true →
      ((embed_metadata_in_video env video_path title kws st).2).events =
        st.events ++ [Event.run (ffmpegCmd video_path title kws),
                      Event.run (exiftoolCmd kws video_path)]) ∧
    (env.runOk (ffmpegCmd video_path title kws) = true →
      env.runOk (exiftoolCmd kws video_path) = true →
      ((embed_metadata_in_video env video_path title kws st).2).fs.files.lookup video_path =
        some (env.procOut (exiftoolCmd kws video_path))) := by
  refine ⟨rfl, ?_, ?_⟩
  · intro h1
    cases h2 : env.runOk (exiftoolCmd kws video_path) <;>
      simp [embed_metadata_in_video, h1, h2]
  · intro h1 h2
    simp [embed_metadata_in_video, h1, h2, lookup_write_self]

/-- Witness for `c7_exiftool_subjects` at a concrete video and keywords. -/
theorem c7_exiftool_subjects_witness :
    ((embed_metadata_in_video envOk (strLit "v.mp4") (strLit "Title")
        [strLit "alpha", strLit "beta"] stVid).2).events =
      stVid.events ++
        [Event.run (ffmpegCmd (strLit "v.mp4") (strLit "Title") [strLit "alpha", strLit "beta"]),
         Event.run (exiftoolCmd [strLit "alpha", strLit "beta"] (strLit "v.mp4"))] ∧
    ((embed_metadata_in_video envOk (strLit "v.mp4") (strLit "Title")
        [strLit "alpha", strLit "beta"] stVid).2).fs.files.lookup (strLit "v.mp4") =
      some (envOk.procOut (exiftoolCmd [strLit "alpha", strLit "beta"] (strLit "v.mp4"))) :=
  ⟨(c7_exiftool_subjects envOk (strLit "v.mp4") (strLit "Title")
      [strLit "alpha", strLit "beta"] stVid).2.1 rfl,
   (c7_exiftool_subjects envOk (strLit "v.mp4") (strLit "Title")
      [strLit "alpha", strLit "beta"] stVid).2.2 rfl rfl⟩

/-- Claim C8: after an image is processed, no `~` backup artifact for
it remains on disk: the save-produced (or pre-existing) backup is
existence-checked and removed before returning. -/
theorem c8_no_backup_left (env : Env) (loc : Option Str) (path : Path)
    (st : St) (res : ProcessResult) (st' : St)
    (hclass : classifyPath path = MediaKind.image)
    (heq : processFile env loc path st = (Except.ok res, st')) :
    st'.fs.isFile (path ++ [126]) = false := by
  unfold processFile at heq
  rw [hclass] at heq
  have heq2 : (Except.ok (ProcessResult.labels
      ((env.vision ((st.fs.files.lookup path).getD 0) (basename path) loc).2)),
      iptcStage env loc path path st) = (Except.ok res, st') := heq
  obtain ⟨-, hst⟩ := Prod.mk.injEq .. ▸ heq2
  subst hst
  exact iptcStage_no_backup env loc path path st

/-- Witness for `c8_no_backup_left` on a concrete image. -/
theorem c8_no_backup_left_witness :
    classifyPath (strLit "d/a.jpg") = MediaKind.image ∧
    ((processFile envOk none (strLit "d/a.jpg") stDir).2).fs.isFile
      (strLit "d/a.jpg" ++ [126]) = false :=
  ⟨rfl, c8_no_backup_left envOk none (strLit "d/a.jpg") stDir
      (ProcessResult.labels (strLit "rawtext"))
      ((processFile envOk none (strLit "d/a.jpg") stDir).2) rfl rfl⟩

theorem processMedia_video_ok_removes (env : Env) (loc : Option Str)
    (path image_path : Path) (st : St) (res : ProcessResult) (st' : St)
    (heq : processMedia env loc path image_path true st = (Except.ok res, st')) :
    st'.fs.isFile image_path = false := by
  unfold processMedia at heq
  simp only [if_true, ite_true] at heq
  split at heq
  case _ _ st5 heqm =>
    obtain ⟨-, hst⟩ := Prod.mk.injEq .. ▸ heq
    subst hst
    cases hex : st5.fs.pathExists image_path with
    | true => simp [hex, isFile_remove_self]
    | false =>
      simp only [hex, Bool.false_eq_true, if_false, ite_false]
      simp [FS.pathExists] at hex
      exact hex.1
  case _ => simp at heq

/-- Claim C2, counterexample to the claim as stated: when the video
metadata embedding step fails (here: ffmpeg exits non-zero), the
exception propagates before the cleanup lines run, and the temporary
still-frame file is still on disk. -/
theorem c2_counterexample :
    classifyPath (strLit "v.mp4") = MediaKind.video ∧
    (process_images_and_embed_metadata envFfmpegFail none 1 (strLit "v.mp4") stVid).1 =
      Except.error (Err.subprocess
        (ffmpegCmd (strLit "v.mp4") (strLit "Title") [strLit "alpha", strLit "beta"])) ∧
    ((process_images_and_embed_metadata envFfmpegFail none 1 (strLit "v.mp4") stVid).2).fs.isFile
      (envFfmpegFail.tempPath 0) = true :=
  ⟨rfl, rfl, rfl⟩

/-- Claim C2 (amended): when single-file processing of a video
completes without an exception, the temporary still-frame file no
longer exists; when the embedding step fails, the exception propagates
and the temporary frame may remain on disk. -/
theorem c2_temp_frame_cleanup (env : Env) (loc : Option Str) (fuel : Nat)
    (path : Path) (st : St) (res : ProcessResult) (st' : St)
    (hdir : st.fs.isDir path = false) (hfile : st.fs.isFile path = true)
    (hclass : classifyPath path = MediaKind.video)
    (heq : process_images_and_embed_metadata env loc (fuel + 1) path st =
      (Except.ok res, st')) :
    st'.fs.isFile (env.tempPath st.tempCtr) = false := by
  simp only [process_images_and_embed_metadata, hdir, hfile, Bool.false_eq_true,
    if_false, ite_false, if_true, ite_true] at heq
  unfold processFile at heq
  rw [hclass] at heq
  have heq2 : (match extract_first_frame env path st with
      | (Except.ok temp, st1) => processMedia env loc path temp true st1
      | (Except.error e, st1) => (Except.error e, st1)) = (Except.ok res, st') := heq
  cases hdf : env.decodeFrame path with
  | none =>
    rw [show extract_first_frame env path st = (Except.error (Err.extraction path), st) by
      simp [extract_first_frame, hdf]] at heq2
    simp at heq2
  | some f =>
    rw [show extract_first_frame env path st =
        (Except.ok (env.tempPath st.tempCtr),
         ⟨st.fs.write (env.tempPath st.tempCtr) f, st.tempCtr + 1, st.events⟩) by
      simp [extract_first_frame, hdf]] at heq2
    exact processMedia_video_ok_removes env loc path _ _ res st' heq2

/-- Witness for `c2_temp_frame_cleanup`: a successful run over a
concrete video leaves no temp frame behind. -/
theorem c2_temp_frame_cleanup_witness :
    stVid.fs.isDir (strLit "v.mp4") = false ∧
    stVid.fs.isFile (strLit "v.mp4") = true ∧
    classifyPath (strLit "v.mp4") = MediaKind.video ∧
    ((process_images_and_embed_metadata envOk none 1 (strLit "v.mp4") stVid).2).fs.isFile
      (envOk.tempPath stVid.tempCtr) = false :=
  ⟨rfl, rfl, rfl,
   c2_temp_frame_cleanup envOk none 0 (strLit "v.mp4") stVid
     (ProcessResult.labels (strLit "rawtext"))
     ((process_images_and_embed_metadata envOk none 1 (strLit "v.mp4") stVid).2)
     rfl rfl rfl rfl⟩

/-! No pipeline operation ever creates or deletes a directory: the
`dirs` component of the file system is invariant.  This is what lets a
directory-membership hypothesis survive the sequential processing of
earlier children. -/

@[simp] theorem FS.write_dirs (fs : FS) (p : Path) (c : Nat) :
    (fs.write p c).dirs = fs.dirs := rfl

@[simp] theorem FS.remove_dirs (fs : FS) (p : Path) :
    (fs.remove p).dirs = fs.dirs := rfl

@[simp] theorem FS.replace_dirs (fs : FS) (src dst : Path) :
    (fs.replace src dst).dirs = fs.dirs := by
  unfold FS.replace; split <;> rfl

theorem extract_dirs (env : Env) (p : Path) (st : St) :
    ((extract_first_frame env p st).2).fs.dirs = st.fs.dirs := by
  unfold extract_first_frame; split <;> simp

theorem embed_dirs (env : Env) (video_path title : Str) (kws : List Str) (st : St) :
    ((embed_metadata_in_video env video_path title kws st).2).fs.dirs = st.fs.dirs := by
  unfold embed_metadata_in_video
  cases h1 : env.runOk (ffmpegCmd video_path title kws) <;>
    cases h2 : env.runOk (exiftoolCmd kws video_path) <;> simp [h1, h2]

theorem iptcStage_dirs (env : Env) (loc : Option Str) (path image_path : Path) (st : St) :
    (iptcStage env loc path image_path st).fs.dirs = st.fs.dirs := by
  unfold iptcStage
  dsimp only
  cases hb : env.iptcBackup image_path <;>
    simp only [hb, Bool.false_eq_true, if_false, ite_false, if_true, ite_true] <;>
    split <;> rfl

theorem processMedia_dirs (env : Env) (loc : Option Str) (path image_path : Path)
    (b : Bool) (st : St) :
    ((processMedia env loc path image_path b st).2).fs.dirs = st.fs.dirs := by
  have hstage := iptcStage_dirs env loc path image_path st
  unfold processMedia
  cases b with
  | false => exact hstage
  | true =>
    simp only [if_true, ite_true]
    split
    case _ a st5 heqm =>
      have h := embed_dirs env path
        ((env.vision ((st.fs.files.lookup image_path).getD 0) (basename path) loc).1).name
        ((env.vision ((st.fs.files.lookup image_path).getD 0) (basename path) loc).1).keywords
        (iptcStage env loc path image_path st)
      rw [heqm] at h
      have h5 : st5.fs.dirs = st.fs.dirs := h.trans hstage
      dsimp only
      split <;> simp [h5]
    case _ e st5 heqm =>
      have h := embed_dirs env path
        ((env.vision ((st.fs.files.lookup image_path).getD 0) (basename path) loc).1).name
        ((env.vision ((st.fs.files.lookup image_path).getD 0) (basename path) loc).1).keywords
        (iptcStage env loc path image_path st)
      rw [heqm] at h
      exact h.trans hstage

theorem processFile_dirs (env : Env) (loc : Option Str) (path : Path) (st : St) :
    ((processFile env loc path st).2).fs.dirs = st.fs.dirs := by
  unfold processFile
  cases hclass : classifyPath path with
  | unsupported => rfl
  | image => exact processMedia_dirs env loc path path false st
  | video =>
    cases hx : extract_first_frame env path st with
    | mk r1 st1 =>
      have h1 : st1.fs.dirs = st.fs.dirs := by
        have := extract_dirs env path st
        rw [hx] at this
        exact this
      cases r1 with
      | ok temp =>
        dsimp only
        rw [processMedia_dirs env loc path temp true st1, h1]
      | error e => exact h1

theorem processDirAux_dirs (f : Path → St → Except Err ProcessResult × St)
    (hf : ∀ p s, ((f p s).2).fs.dirs = s.fs.dirs) (base : Path) :
    ∀ (names : List Str) (st : St),
      ((processDirAux f base names st).2).fs.dirs = st.fs.dirs := by
  intro names
  induction names with
  | nil => intro st; rfl
  | cons n ns ih =>
    intro st
    unfold processDirAux
    cases hx : f (pathJoin base n) st with
    | mk r1 st1 =>
      have h1 : st1.fs.dirs = st.fs.dirs := by
        have := hf (pathJoin base n) st
        rw [hx] at this
        exact this
      cases r1 with
      | error e => exact h1
      | ok r =>
        dsimp only
        cases hy : processDirAux f base ns st1 with
        | mk r2 st2 =>
          have h2 : st2.fs.dirs = st1.fs.dirs := by
            have := ih st1
            rw [hy] at this
            exact this
          cases r2 <;> dsimp only <;> rw [h2, h1]

theorem process_dirs (env : Env) (loc : Option Str) :
    ∀ (fuel : Nat) (path : Path) (st : St),
      ((process_images_and_embed_metadata env loc fuel path st).2).fs.dirs = st.fs.dirs := by
  intro fuel
  induction fuel with
  | zero => intro path st; rfl
  | succ fuel ih =>
    intro path st
    unfold process_images_and_embed_metadata
    cases hdir : st.fs.isDir path with
    | true =>
      simp only [hdir, if_true, ite_true]
      cases hy : processDirAux
          (fun p s => process_images_and_embed_metadata env loc fuel p s) path
          (((st.fs.dirs.lookup path).getD []).filter eligibleName) st with
      | mk r2 st2 =>
        have h2 : st2.fs.dirs = st.fs.dirs := by
          have := processDirAux_dirs
            (fun p s => process_images_and_embed_metadata env loc fuel p s)
            (fun p s => ih p s) path
            (((st.fs.dirs.lookup path).getD []).filter eligibleName) st
          rw [hy] at this
          exact this
        cases r2 <;> simpa using h2
    | false =>
      simp only [hdir, Bool.false_eq_true, if_false, ite_false]
      cases hfile : st.fs.isFile path with
      | true => simp only [if_true, ite_true]; exact processFile_dirs env loc path st
      | false => simp only [Bool.false_eq_true, if_false, ite_false]

/-! A single-file call never returns a per-filename mapping: mappings
arise only from the directory branch. -/

theorem processMedia_ok_no_mapping (env : Env) (loc : Option Str)
    (path image_path : Path) (b : Bool) (st : St) (res : ProcessResult) (st' : St)
    (heq : processMedia env loc path image_path b st = (Except.ok res, st')) :
    ∀ es, res ≠ ProcessResult.mapping es := by
  unfold processMedia at heq
  cases b with
  | false =>
    have heq2 : (Except.ok (ProcessResult.labels
        ((env.vision ((st.fs.files.lookup image_path).getD 0) (basename path) loc).2)),
        iptcStage env loc path image_path st) = (Except.ok res, st') := heq
    simp only [Prod.mk.injEq, Except.ok.injEq] at heq2
    obtain ⟨rfl, -⟩ := heq2
    exact fun es h => ProcessResult.noConfusion h
  | true =>
    simp only [if_true, ite_true] at heq
    split at heq
    case _ a st5 heqm =>
      simp only [Prod.mk.injEq, Except.ok.injEq] at heq
      obtain ⟨rfl, -⟩ := heq
      exact fun es h => ProcessResult.noConfusion h
    case _ => simp at heq

theorem processFile_ok_no_mapping (env : Env) (loc : Option Str) (path : Path)
    (st : St) (res : ProcessResult) (st' : St)
    (heq : processFile env loc path st = (Except.ok res, st')) :
    ∀ es, res ≠ ProcessResult.mapping es := by
  unfold processFile at heq
  cases hclass : classifyPath path <;> rw [hclass] at heq
  case image => exact processMedia_ok_no_mapping env loc path path false st res st' heq
  case video =>
    cases hx : extract_first_frame env path st with
    | mk r1 st1 =>
      rw [hx] at heq
      cases r1 with
      | ok temp => exact processMedia_ok_no_mapping env loc path temp true st1 res st' heq
      | error e => simp at heq
  case unsupported =>
    have heq2 : (Except.ok (ProcessResult.errorResult
        (strLit "Unsupported file type: " ++ path)), st) = (Except.ok res, st') := heq
    simp only [Prod.mk.injEq, Except.ok.injEq] at heq2
    obtain ⟨rfl, -⟩ := heq2
    exact fun es h => ProcessResult.noConfusion h

theorem process_nondir_ok_no_mapping (env : Env) (loc : Option Str) (fuel : Nat)
    (path : Path) (st : St) (res : ProcessResult) (st' : St)
    (hdir : st.fs.isDir path = false)
    (heq : process_images_and_embed_metadata env loc fuel path st = (Except.ok res, st')) :
    ∀ es, res ≠ ProcessResult.mapping es := by
  cases fuel with
  | zero => simp [process_images_and_embed_metadata] at heq
  | succ fuel =>
    simp only [process_images_and_embed_metadata, hdir, Bool.false_eq_true, if_false,
      ite_false] at heq
    cases hfile : st.fs.isFile path with
    | true =>
      simp only [hfile, if_true, ite_true] at heq
      exact processFile_ok_no_mapping env loc path st res st' heq
    | false =>
      simp only [hfile, Bool.false_eq_true, if_false, ite_false, Prod.mk.injEq,
        Except.ok.injEq] at heq
      obtain ⟨rfl, -⟩ := heq
      exact fun es h => ProcessResult.noConfusion h

/-! The directory loop: keys of a returned mapping are exactly the
names it was given, and values are never themselves mappings when no
child is a directory. -/

theorem processDirAux_ok_keys (f : Path → St → Except Err ProcessResult × St)
    (base : Path) :
    ∀ (names : List Str) (st : St) (rs : List (Str × ProcessResult)) (st' : St),
      processDirAux f base names st = (Except.ok rs, st') →
      rs.map Prod.fst = names := by
  intro names
  induction names with
  | nil =>
    intro st rs st' heq
    simp only [processDirAux, Prod.mk.injEq, Except.ok.injEq] at heq
    obtain ⟨h1, -⟩ := heq
    subst h1
    rfl
  | cons n ns ih =>
    intro st rs st' heq
    unfold processDirAux at heq
    cases hx : f (pathJoin base n) st with
    | mk r1 st1 =>
      rw [hx] at heq
      cases r1 with
      | error e => simp at heq
      | ok r =>
        dsimp only at heq
        cases hy : processDirAux f base ns st1 with
        | mk r2 st2 =>
          rw [hy] at heq
          cases r2 with
          | error e => simp at heq
          | ok rs2 =>
            simp only [Prod.mk.injEq, Except.ok.injEq] at heq
            obtain ⟨h1, -⟩ := heq
            subst h1
            simp [ih st1 rs2 st2 hy]

theorem isDir_congr {fs1 fs2 : FS} (h : fs1.dirs = fs2.dirs) (p : Path) :
    fs1.isDir p = fs2.isDir p := by
  simp [FS.isDir, h]

theorem processDirAux_ok_no_mapping (env : Env) (loc : Option Str) (fuel : Nat)
    (base : Path) :
    ∀ (names : List Str) (st : St) (rs : List (Str × ProcessResult)) (st' : St),
      (∀ n ∈ names, st.fs.isDir (pathJoin base n) = false) →
      processDirAux (fun p s => process_images_and_embed_metadata env loc fuel p s)
        base names st = (Except.ok rs, st') →
      ∀ e ∈ rs, ∀ es, e.2 ≠ ProcessResult.mapping es := by
  intro names
  induction names with
  | nil =>
    intro st rs st' _ heq
    simp only [processDirAux, Prod.mk.injEq, Except.ok.injEq] at heq
    obtain ⟨h1, -⟩ := heq
    subst h1
    intro e he
    exact absurd he (List.not_mem_nil e)
  | cons n ns ih =>
    intro st rs st' hnd heq
    unfold processDirAux at heq
    cases hx : process_images_and_embed_metadata env loc fuel (pathJoin base n) st with
    | mk r1 st1 =>
      rw [hx] at heq
      cases r1 with
      | error e => simp at heq
      | ok r =>
        dsimp only at heq
        cases hy : processDirAux
            (fun p s => process_images_and_embed_metadata env loc fuel p s)
            base ns st1 with
        | mk r2 st2 =>
          rw [hy] at heq
          cases r2 with
          | error e => simp at heq
          | ok rs2 =>
            simp only [Prod.mk.injEq, Except.ok.injEq] at heq
            obtain ⟨h1, -⟩ := heq
            subst h1
            have hpres : st1.fs.dirs = st.fs.dirs := by
              have h := process_dirs env loc fuel (pathJoin base n) st
              rw [hx] at h
              exact h
            intro e he es
            rcases List.mem_cons.mp he with rfl | hmem
            · exact process_nondir_ok_no_mapping env loc fuel (pathJoin base n) st r st1
                (hnd n (List.mem_cons_self n ns)) hx es
            · refine ih st1 rs2 st2 ?_ hy e hmem es
              intro m hm
              rw [isDir_congr hpres (pathJoin base m)]
              exact hnd m (List.mem_cons_of_mem _ hm)

theorem process_ok_mapping_keys (env : Env) (loc : Option Str) (fuel : Nat)
    (path : Path) (st : St) (es : List (Str × ProcessResult)) (st' : St)
    (heq : process_images_and_embed_metadata env loc fuel path st =
      (Except.ok (ProcessResult.mapping es), st')) :
    es.map Prod.fst = ((st.fs.dirs.lookup path).getD []).filter eligibleName := by
  cases fuel with
  | zero => simp [process_images_and_embed_metadata] at heq
  | succ fuel =>
    cases hdir : st.fs.isDir path with
    | true =>
      simp only [process_images_and_embed_metadata, hdir, if_true, ite_true] at heq
      cases hy : processDirAux
          (fun p s => process_images_and_embed_metadata env loc fuel p s) path
          (((st.fs.dirs.lookup path).getD []).filter eligibleName) st with
      | mk r2 st2 =>
        rw [hy] at heq
        cases r2 with
        | error e => simp at heq
        | ok rs =>
          simp only [Prod.mk.injEq, Except.ok.injEq, ProcessResult.mapping.injEq] at heq
          obtain ⟨h1, -⟩ := heq
          subst h1
          exact processDirAux_ok_keys _ path _ st rs st2 hy
    | false =>
      exact absurd rfl
        (process_nondir_ok_no_mapping env loc (fuel + 1) path st _ st' hdir heq es)

/-- Claim C3, counterexample to the claim as stated: a directory child
whose name ends in a supported extension is itself recursed into.  With
`d/s.jpg` a directory, the batch result for `d` nests a second mapping,
and the file `d/s.jpg/x.jpg` — two levels below `d` — is processed (its
IPTC save is in the event trace). -/
theorem c3_counterexample :
    (process_images_and_embed_metadata envOk none 3 (strLit "d") stNested).1 =
      Except.ok (ProcessResult.mapping
        [(strLit "s.jpg", ProcessResult.mapping
            [(strLit "x.jpg", ProcessResult.labels (strLit "rawtext"))])]) ∧
    Event.iptcSave (strLit "d/s.jpg/x.jpg") (strLit "Title")
        [strLit "alpha", strLit "beta"] ∈
      ((process_images_and_embed_metadata envOk none 3 (strLit "d") stNested).2).events :=
  ⟨rfl, by decide⟩

/-- Claim C3 (amended): batch traversal of a directory stays at depth
one — every value of the returned mapping is a single-file result, not
a nested mapping — provided no immediate child with an eligible name is
itself a directory; a child directory whose name ends in a supported
extension is recursed into. -/
theorem c3_one_level_descent (env : Env) (loc : Option Str) (fuel : Nat)
    (path : Path) (st : St) (children : List Str) (res : ProcessResult) (st' : St)
    (hlk : st.fs.dirs.lookup path = some children)
    (hnd : ∀ n ∈ children, eligibleName n = true → st.fs.isDir (pathJoin path n) = false)
    (heq : process_images_and_embed_metadata env loc (fuel + 1) path st =
      (Except.ok res, st')) :
    ∃ entries, res = ProcessResult.mapping entries ∧
      ∀ e ∈ entries, ∀ es, e.2 ≠ ProcessResult.mapping es := by
  have hdir : st.fs.isDir path = true := by simp [FS.isDir, hlk]
  simp only [process_images_and_embed_metadata, hdir, if_true, ite_true, hlk,
    Option.getD_some] at heq
  cases hy : processDirAux
      (fun p s => process_images_and_embed_metadata env loc fuel p s) path
      (children.filter eligibleName) st with
  | mk r2 st2 =>
    rw [hy] at heq
    cases r2 with
    | error e => simp at heq
    | ok rs =>
      simp only [Prod.mk.injEq, Except.ok.injEq] at heq
      obtain ⟨h1, -⟩ := heq
      refine ⟨rs, h1.symm, ?_⟩
      refine processDirAux_ok_no_mapping env loc fuel path (children.filter eligibleName)
        st rs st2 ?_ hy
      intro n hn
      have h := List.mem_filter.mp hn
      exact hnd n h.1 h.2

/-- Witness for `c3_one_level_descent` on a concrete flat directory. -/
theorem c3_one_level_descent_witness :
    stDir.fs.dirs.lookup (strLit "d") = some [strLit "a.jpg", strLit "notes.txt"] ∧
    ∃ entries,
      ProcessResult.mapping [(strLit "a.jpg", ProcessResult.labels (strLit "rawtext"))] =
        ProcessResult.mapping entries ∧
      ∀ e ∈ entries, ∀ es, e.2 ≠ ProcessResult.mapping es :=
  ⟨rfl,
   c3_one_level_descent envOk none 1 (strLit "d") stDir
     [strLit "a.jpg", strLit "notes.txt"]
     (ProcessResult.mapping [(strLit "a.jpg", ProcessResult.labels (strLit "rawtext"))])
     ((process_images_and_embed_metadata envOk none 2 (strLit "d") stDir).2)
     rfl (by decide) rfl⟩

/-- Claim C4: whenever the pipeline returns a result for a directory,
that result is a mapping whose keys are exactly the directory's
eligible immediate child names, in order — for `N` eligible children,
exactly `N` entries keyed by those filenames. -/
theorem c4_directory_mapping (env : Env) (loc : Option Str) (fuel : Nat)
    (path : Path) (st : St) (children : List Str) (res : ProcessResult) (st' : St)
    (hlk : st.fs.dirs.lookup path = some children)
    (heq : process_images_and_embed_metadata env loc fuel path st =
      (Except.ok res, st')) :
    ∃ entries, res = ProcessResult.mapping entries ∧
      entries.map Prod.fst = children.filter eligibleName := by
  cases fuel with
  | zero => simp [process_images_and_embed_metadata] at heq
  | succ fuel =>
    have hdir : st.fs.isDir path = true := by simp [FS.isDir, hlk]
    simp only [process_images_and_embed_metadata, hdir, if_true, ite_true, hlk,
      Option.getD_some] at heq
    cases hy : processDirAux
        (fun p s => process_images_and_embed_metadata env loc fuel p s) path
        (children.filter eligibleName) st with
    | mk r2 st2 =>
      rw [hy] at heq
      cases r2 with
      | error e => simp at heq
      | ok rs =>
        simp only [Prod.mk.injEq, Except.ok.injEq] at heq
        obtain ⟨h1, -⟩ := heq
        exact ⟨rs, h1.symm, processDirAux_ok_keys _ path _ st rs st2 hy⟩

/-- Witness for `c4_directory_mapping` on a concrete directory with one
eligible and one ineligible child. -/
theorem c4_directory_mapping_witness :
    stDir.fs.dirs.lookup (strLit "d") = some [strLit "a.jpg", strLit "notes.txt"] ∧
    ∃ entries,
      ProcessResult.mapping [(strLit "a.jpg", ProcessResult.labels (strLit "rawtext"))] =
        ProcessResult.mapping entries ∧
      entries.map Prod.fst = [strLit "a.jpg", strLit "notes.txt"].filter eligibleName :=
  ⟨rfl,
   c4_directory_mapping envOk none 2 (strLit "d") stDir
     [strLit "a.jpg", strLit "notes.txt"]
     (ProcessResult.mapping [(strLit "a.jpg", ProcessResult.labels (strLit "rawtext"))])
     ((process_images_and_embed_metadata envOk none 2 (strLit "d") stDir).2)
     rfl rfl⟩

/-- Claim C9: for a completed CLI invocation, a line is printed to
standard output iff the top-level result dict contains the key
`"error"`; that happens exactly when the result is the inline error
dict, and the printed line is its error message.  (A directory mapping
never contains the key `"error"`: its keys all pass the extension
filter, which the name `"error"` does not.) -/
theorem c9_cli_error_print (env : Env) (loc : Option Str) (fuel : Nat)
    (path : Path) (st : St) (res : ProcessResult) (st' : St)
    (heq : process_images_and_embed_metadata env loc fuel path st =
      (Except.ok res, st')) :
    ((∃ v, cliPrinted res = some v) ↔ hasErrorKey res = true) ∧
    (∀ msg, res = ProcessResult.errorResult msg →
      cliPrinted res = some (Sum.inl msg)) ∧
    (hasErrorKey res = true → ∃ msg, res = ProcessResult.errorResult msg) := by
  refine ⟨?_, ?_, ?_⟩
  · cases h : hasErrorKey res <;> simp [cliPrinted, h]
  · intro msg hres
    subst hres
    rfl
  · intro hkey
    cases res with
    | labels s => simp [hasErrorKey] at hkey
    | errorResult msg => exact ⟨msg, rfl⟩
    | mapping es =>
      exfalso
      have hkeys := process_ok_mapping_keys env loc fuel path st es st' heq
      simp only [hasErrorKey, List.any_eq_true] at hkey
      obtain ⟨e, he, hbeq⟩ := hkey
      have he1 : e.1 = strLit "error" := eq_of_beq hbeq
      have hmem : e.1 ∈ es.map Prod.fst := List.mem_map_of_mem Prod.fst he
      rw [hkeys] at hmem
      have helig := (List.mem_filter.mp hmem).2
      rw [he1] at helig
      exact absurd helig (by decide)

/-- Witness for `c9_cli_error_print` on a run that returns the inline
error dict. -/
theorem c9_cli_error_print_witness :
    cliPrinted (ProcessResult.errorResult
      (strLit "Path " ++ [39] ++ strLit "nope" ++ [39] ++
       strLit " is not a valid file or directory.")) =
      some (Sum.inl (strLit "Path " ++ [39] ++ strLit "nope" ++ [39] ++
       strLit " is not a valid file or directory.")) :=
  (c9_cli_error_print envOk none 1 (strLit "nope") stTxt
    (ProcessResult.errorResult
      (strLit "Path " ++ [39] ++ strLit "nope" ++ [39] ++
       strLit " is not a valid file or directory."))
    ((process_images_and_embed_metadata envOk none 1 (strLit "nope") stTxt).2)
    rfl).2.1 _ rfl

/-! Arithmetic of `rfindIdx` under append, used to compute the
`splitext` extension of a path with a known suffix. -/

theorem rfindIdx_append_some (c : Nat) (a b : Str) (j : Nat)
    (h : rfindIdx c b = some j) : rfindIdx c (a ++ b) = some (a.length + j) := by
  induction a with
  | nil => simpa using h
  | cons x xs ih =>
    rw [List.cons_append]
    unfold rfindIdx
    rw [ih]
    show some (xs.length + j + 1) = some ((x :: xs).length + j)
    rw [List.length_cons]
    congr 1
    omega

theorem rfindIdx_append_none (c : Nat) (a b : Str) (h : rfindIdx c b = none) :
    rfindIdx c (a ++ b) = rfindIdx c a := by
  induction a with
  | nil => simpa using h
  | cons x xs ih =>
    rw [List.cons_append]
    unfold rfindIdx
    rw [ih]

theorem rfindIdx_lt_length (c : Nat) :
    ∀ (l : Str) (i : Nat), rfindIdx c l = some i → i < l.length := by
  intro l
  induction l with
  | nil => intro i h; simp [rfindIdx] at h
  | cons x xs ih =>
    intro i h
    unfold rfindIdx at h
    cases hm : rfindIdx c xs with
    | some j =>
      rw [hm] at h
      dsimp only at h
      injection h with h2
      subst h2
      have := ih j hm
      rw [List.length_cons]
      omega
    | none =>
      rw [hm] at h
      dsimp only at h
      split at h
      · injection h with h2
        subst h2
        rw [List.length_cons]
        omega
      · exact Option.noConfusion h

theorem anyCongr {l : List Nat} {f g : Nat → Bool}
    (h : ∀ x ∈ l, f x = g x) : l.any f = l.any g := by
  induction l with
  | nil => rfl
  | cons a t ih =>
    simp only [List.any_cons]
    rw [h a (List.mem_cons_self a t), ih fun x hx => h x (List.mem_cons_of_mem _ hx)]

theorem sepStart_le (stem : Str) : sepStart stem ≤ stem.length := by
  unfold sepStart
  cases h7 : rfindIdx 47 stem with
  | none => exact Nat.zero_le _
  | some i => exact rfindIdx_lt_length 47 stem i h7

theorem splitextExt_append (stem e : Str) (h46 : rfindIdx 46 e = some 0)
    (h47 : rfindIdx 47 e = none) :
    splitextExt (stem ++ e) = if stemCond stem then e else [] := by
  have hd : rfindIdx 46 (stem ++ e) = some stem.length := by
    simpa using rfindIdx_append_some 46 stem e 0 h46
  have hsep : sepStart (stem ++ e) = sepStart stem := by
    unfold sepStart
    rw [rfindIdx_append_none 47 stem e h47]
  have hany : ((List.range' (sepStart stem) (stem.length - sepStart stem)).any
      fun j => (stem ++ e).getD j 0 != 46) = stemCond stem := by
    unfold stemCond
    refine anyCongr ?_
    intro j hj
    have hjlt : j < stem.length := by
      have hm := List.mem_range'_1.mp hj
      have := sepStart_le stem
      omega
    rw [List.getD_append _ _ _ _ hjlt]
  simp only [splitextExt, hd, hsep]
  rw [List.drop_left, hany]
  cases hc : stemCond stem with
  | true => simp [hc, sepStart_le stem]
  | false => simp [hc]

theorem lowerStr_append (a b : Str) : lowerStr (a ++ b) = lowerStr a ++ lowerStr b :=
  List.map_append lowerCode a b

theorem isSuffixOf_append_self (l suffix : Str) :
    suffix.isSuffixOf (l ++ suffix) = true := by
  simp [List.isSuffixOf_iff_suffix]

theorem classifyPath_append_congr (stem e1 e2 : Str)
    (h1 : rfindIdx 46 e1 = some 0) (h2 : rfindIdx 47 e1 = none)
    (h3 : rfindIdx 46 e2 = some 0) (h4 : rfindIdx 47 e2 = none)
    (h5 : lowerStr e1 = lowerStr e2) :
    classifyPath (stem ++ e1) = classifyPath (stem ++ e2) := by
  unfold classifyPath
  rw [splitextExt_append stem e1 h1 h2, splitextExt_append stem e2 h3 h4]
  cases hc : stemCond stem <;> simp [hc, h5]

/-- Claim C10: extension eligibility and single-file dispatch are
case-insensitive.  For every stem, appending any of `.JPG`, `.Jpeg`,
`.PNG`, `.MP4` makes the name eligible for directory enumeration just
like the lower-case counterpart, and the extension dispatch classifies
the path exactly as it does the lower-case counterpart (at concrete
inputs: `a.JPG` is dispatched as an image and `a.MP4` as a video). -/
theorem c10_case_insensitive (stem : Str) :
    (eligibleName (stem ++ strLit ".JPG") = true ∧
      eligibleName (stem ++ strLit ".jpg") = true) ∧
    (eligibleName (stem ++ strLit ".Jpeg") = true ∧
      eligibleName (stem ++ strLit ".jpeg") = true) ∧
    (eligibleName (stem ++ strLit ".PNG") = true ∧
      eligibleName (stem ++ strLit ".png") = true) ∧
    (eligibleName (stem ++ strLit ".MP4") = true ∧
      eligibleName (stem ++ strLit ".mp4") = true) ∧
    (classifyPath (stem ++ strLit ".JPG") = classifyPath (stem ++ strLit ".jpg") ∧
      classifyPath (stem ++ strLit ".Jpeg") = classifyPath (stem ++ strLit ".jpeg") ∧
      classifyPath (stem ++ strLit ".PNG") = classifyPath (stem ++ strLit ".png") ∧
      classifyPath (stem ++ strLit ".MP4") = classifyPath (stem ++ strLit ".mp4")) ∧
    classifyPath (strLit "a.JPG") = MediaKind.image ∧
    classifyPath (strLit "a.MP4") = MediaKind.video := by
  refine ⟨⟨?_, ?_⟩, ⟨?_, ?_⟩, ⟨?_, ?_⟩, ⟨?_, ?_⟩, ⟨?_, ?_, ?_, ?_⟩, by decide, by decide⟩
  · unfold eligibleName
    rw [lowerStr_append, show lowerStr (strLit ".JPG") = strLit ".jpg" from by decide]
    simp [isSuffixOf_append_self]
  · unfold eligibleName
    rw [lowerStr_append, show lowerStr (strLit ".jpg") = strLit ".jpg" from by decide]
    simp [isSuffixOf_append_self]
  · unfold eligibleName
    rw [lowerStr_append, show lowerStr (strLit ".Jpeg") = strLit ".jpeg" from by decide]
    simp [isSuffixOf_append_self]
  · unfold eligibleName
    rw [lowerStr_append, show lowerStr (strLit ".jpeg") = strLit ".jpeg" from by decide]
    simp [isSuffixOf_append_self]
  · unfold eligibleName
    rw [lowerStr_append, show lowerStr (strLit ".PNG") = strLit ".png" from by decide]
    simp [isSuffixOf_append_self]
  · unfold eligibleName
    rw [lowerStr_append, show lowerStr (strLit ".png") = strLit ".png" from by decide]
    simp [isSuffixOf_append_self]
  · unfold eligibleName
    rw [lowerStr_append, show lowerStr (strLit ".MP4") = strLit ".mp4" from by decide]
    simp [isSuffixOf_append_self]
  · unfold eligibleName
    rw [lowerStr_append, show lowerStr (strLit ".mp4") = strLit ".mp4" from by decide]
    simp [isSuffixOf_append_self]
  · exact classifyPath_append_congr stem _ _ (by decide) (by decide) (by decide)
      (by decide) (by decide)
  · exact classifyPath_append_congr stem _ _ (by decide) (by decide) (by decide)
      (by decide) (by decide)
  · exact classifyPath_append_congr stem _ _ (by decide) (by decide) (by decide)
      (by decide) (by decide)
  · exact classifyPath_append_congr stem _ _ (by decide) (by decide) (by decide)
      (by decide) (by decide)

end Generator
